import Mathlib

/-!
Verification of the PostXAgent scheduling and dispatch core.

This file gives a shallow embedding, in Lean 4, of the scheduling machinery
of the PostXAgent repository and settles the specification claims against it.
The embedded code comes from:

  ai-manager/core/orchestrator.py          (process supervisor)
  gpu-worker/postx_worker/distributed/task_distributor.py
  gpu-worker/postx_worker/distributed/pool_manager.py
  gpu-worker/postx_worker/worker.py        (worker control client)

Pure fragments become Lean functions; stateful methods become explicit
state-passing functions.  Machine floats (compute power, VRAM sizes) are
modelled as rationals; Python dicts become function maps or association
lists; Python string comparison is modelled by an explicit lexicographic
order on character lists.
-/

namespace PostXAgent

/-! ## Python string order

Python compares strings lexicographically by code point.  Lean's builtin
String order does not kernel-reduce, so we model the comparison directly on
the character list. -/

/-- Lexicographic strict order on character lists, by code point, as Python
compares strings. -/
def charListLt : List Char → List Char → Bool
  | [], [] => false
  | [], _ :: _ => true
  | _ :: _, [] => false
  | a :: as, b :: bs => decide (a < b) || (decide (a = b) && charListLt as bs)

/-- Python string comparison a < b. -/
def strLt (a b : String) : Bool := charListLt a.toList b.toList

theorem charListLt_irrefl (l : List Char) : charListLt l l = false := by
  induction l with
  | nil => rfl
  | cons a as ih => simp [charListLt, ih]

theorem charListLt_trans {a b c : List Char} (hab : charListLt a b = true)
    (hbc : charListLt b c = true) : charListLt a c = true := by
  induction a generalizing b c with
  | nil =>
    cases b with
    | nil => simp [charListLt] at hab
    | cons y ys =>
      cases c with
      | nil => simp [charListLt] at hbc
      | cons z zs => simp [charListLt]
  | cons x xs ih =>
    cases b with
    | nil => simp [charListLt] at hab
    | cons y ys =>
      cases c with
      | nil => simp [charListLt] at hbc
      | cons z zs =>
        simp only [charListLt, Bool.or_eq_true, Bool.and_eq_true,
          decide_eq_true_eq] at hab hbc ⊢
        rcases hab with hxy | ⟨hxy, htab⟩
        · rcases hbc with hyz | ⟨hyz, _⟩
          · exact Or.inl (lt_trans hxy hyz)
          · exact Or.inl (hyz ▸ hxy)
        · rcases hbc with hyz | ⟨hyz, htbc⟩
          · exact Or.inl (hxy ▸ hyz)
          · exact Or.inr ⟨hxy.trans hyz, ih htab htbc⟩

theorem strLt_irrefl (s : String) : strLt s s = false := charListLt_irrefl _

theorem strLt_trans {a b c : String} (hab : strLt a b = true)
    (hbc : strLt b c = true) : strLt a c = true :=
  charListLt_trans hab hbc

/-! ## Process supervisor (ai-manager/core/orchestrator.py)

The nine platforms of config/settings.py SocialPlatform, in declaration
order. -/

inductive Platform where
  | facebook | instagram | tiktok | twitter | line
  | youtube | threads | linkedin | pinterest
  deriving DecidableEq

/-- Iteration order of the SocialPlatform enum. -/
def platformsList : List Platform :=
  [.facebook, .instagram, .tiktok, .twitter, .line,
   .youtube, .threads, .linkedin, .pinterest]

/-- The high_traffic_platforms list of ProcessOrchestrator, in order
Facebook, Instagram, TikTok, LINE. -/
def highTrafficPlatforms : List Platform :=
  [.facebook, .instagram, .tiktok, .line]

/-- Serialized task record as produced by Task.to_dict: the fields the
supervisor reads and writes.  Payload, owner ids and the created_at
timestamp are opaque to the scheduling core and elided. -/
structure TaskData where
  id : String
  platform : Platform
  status : String
  retries : Nat
  result : Option String
  error : Option String
  deriving DecidableEq

/-- A worker completion report as put on the shared result queue by
WorkerProcess.run: worker_id, task_id, status and result or error. -/
structure WorkerResult where
  workerId : Nat
  taskId : String
  status : String
  result : Option String
  error : Option String

/-- Supervisor state: the active/completed task maps (Manager dict proxies),
the per-platform external pending keys and mailboxes, the outbound
laravel:results list, and the counters of the stats dict.  Redis list
pushes (lpush) prepend. -/
structure OrchState where
  active : String → Option TaskData
  completed : String → Option TaskData
  pending : Platform → List TaskData
  mailbox : Platform → List TaskData
  outbound : List TaskData
  tasksProcessed : Nat
  tasksFailed : Nat
  tasksQueued : Nat

/-- Point update of a function map (dict assignment d[k] = v). -/
def mapSet (m : String → Option TaskData) (k : String) (v : TaskData) :
    String → Option TaskData :=
  fun k' => if k' = k then some v else m k'

/-- Point removal from a function map (del d[k]). -/
def mapDel (m : String → Option TaskData) (k : String) :
    String → Option TaskData :=
  fun k' => if k' = k then none else m k'

/-- ProcessOrchestrator.submit_task: lpush onto tasks:<platform>:pending,
put on the platform mailbox, record in active_tasks, bump tasks_queued. -/
def submitTask (st : OrchState) (t : TaskData) : OrchState :=
  { st with
    pending := fun p => if p = t.platform then t :: st.pending p else st.pending p
    mailbox := fun p => if p = t.platform then st.mailbox p ++ [t] else st.mailbox p
    active := mapSet st.active t.id t
    tasksQueued := st.tasksQueued + 1 }

/-- ProcessOrchestrator.cancel_task: if the id is in active_tasks, set its
status to cancelled, delete it from active_tasks, record it in
completed_tasks and return True; otherwise return False.  Nothing is
pushed to the outbound results key. -/
def cancelTask (st : OrchState) (taskId : String) : OrchState × Bool :=
  match st.active taskId with
  | some td =>
    let td2 := { td with status := "cancelled" }
    ({ st with
        active := mapDel st.active taskId
        completed := mapSet st.completed taskId td2 }, true)
  | none => (st, false)

/-- One result handled by ProcessOrchestrator._result_processor: if the
task id is in active_tasks, apply status/result/error, move the record
from active_tasks to completed_tasks, bump the counters, and lpush the
record onto laravel:results.  Unknown ids are dropped.  The pending keys
are never touched and the retries counter is never changed. -/
def processResult (st : OrchState) (r : WorkerResult) : OrchState :=
  match st.active r.taskId with
  | none => st
  | some td =>
    let td2 := { td with status := r.status, result := r.result, error := r.error }
    { st with
      active := mapDel st.active r.taskId
      completed := mapSet st.completed r.taskId td2
      tasksProcessed := if r.status = "completed" then st.tasksProcessed + 1 else st.tasksProcessed
      tasksFailed := if r.status = "completed" then st.tasksFailed else st.tasksFailed + 1
      outbound := td2 :: st.outbound }

/-- The default MAX_RETRIES of config/settings.py. -/
def maxRetries : Nat := 3

/-- The record the result processor writes: the stored task dict with the
report's status, result and error applied (orchestrator.py lines
392-394). -/
def appliedResult (td : TaskData) (r : WorkerResult) : TaskData :=
  { td with status := r.status, result := r.result, error := r.error }

/-! Worker allocation of ProcessOrchestrator.initialize: max(1, N // 9)
workers per platform, then one extra worker per platform of the
high-traffic list while remaining_cores = N - created is positive. -/

/-- workers_per_platform = max(1, num_cores // len(SocialPlatform)). -/
def workersPerPlatform (numCores : Nat) : Nat :=
  max 1 (numCores / platformsList.length)

/-- The platform of each worker created by the first allocation loop, in
creation order. -/
def baseWorkers (numCores : Nat) : List Platform :=
  platformsList.flatMap (fun p => List.replicate (workersPerPlatform numCores) p)

/-- The second loop over high_traffic_platforms: create one worker per
platform while remaining_cores > 0. -/
def extraWorkers : Int → List Platform → List Platform
  | _, [] => []
  | r, p :: rest => if r ≤ 0 then [] else p :: extraWorkers (r - 1) rest

/-- All workers created by ProcessOrchestrator.initialize for a given core
count, tagged by platform, in creation order. -/
def initWorkers (numCores : Nat) : List Platform :=
  baseWorkers numCores ++
    extraWorkers ((numCores : Int) - (baseWorkers numCores).length) highTrafficPlatforms

/-! ## GPU pool (distributed/pool_manager.py) -/

/-- Distribution modes of pool_manager.DistributionMode. -/
inductive DistributionMode where
  | parallel | combined | auto
  deriving DecidableEq

/-- Worker status of pool_manager.WorkerStatus. -/
inductive WorkerStatus where
  | online | offline | busy | error
  deriving DecidableEq

/-- WorkerNode of pool_manager.py: the fields the distribution logic
reads.  Endpoint, gpu_count, counters and last_heartbeat do not enter any
scheduling decision and are elided.  VRAM figures and compute power are
floats in the source, modelled as rationals. -/
structure WorkerNode where
  id : String
  totalVramGb : ℚ
  freeVramGb : ℚ
  status : WorkerStatus
  currentTask : Option String
  computePower : ℚ
  deriving DecidableEq

/-- WorkerNode.is_available: status == ONLINE and current_task is None. -/
def WorkerNode.isAvailable (w : WorkerNode) : Bool :=
  w.status = WorkerStatus.online && w.currentTask = none

/-- GPUPoolManager.get_available_workers over the registry in registration
order (Python dict values order). -/
def getAvailableWorkers (registry : List WorkerNode) : List WorkerNode :=
  registry.filter (fun w => w.isAvailable)

/-! ## Task distributor (distributed/task_distributor.py) -/

/-- TaskPriority of task_distributor.py. -/
inductive TaskPriority where
  | low | normal | high | urgent
  deriving DecidableEq

/-- The .value of each TaskPriority member. -/
def TaskPriority.val : TaskPriority → Nat
  | .low => 1
  | .normal => 2
  | .high => 3
  | .urgent => 4

/-- Task status of task_distributor.TaskStatus. -/
inductive DistStatus where
  | pending | queued | distributed | processing | completed | failed | cancelled
  deriving DecidableEq

/-- Generation request payload: the keys the distribution logic reads from
the request dict (batch_size, model_id, requires_large_vram); the rest of
the request is opaque. -/
structure GenRequest where
  batchSize : Nat := 1
  modelId : String := ""
  requiresLargeVram : Bool := false
  deriving DecidableEq

/-- DistributedTask of task_distributor.py: the fields the scheduling
logic reads and writes.  Wall-clock timestamps (created_at, started_at,
completed_at) and the callback are elided: no scheduling decision reads
them. -/
structure DistTask where
  id : String
  type : String
  request : GenRequest
  priority : TaskPriority
  mode : DistributionMode
  status : DistStatus
  assignedWorkers : List String
  subtasks : List String
  result : Option String
  error : Option String
  deriving DecidableEq

/-- TaskDistributor._estimate_vram_requirement: first match of a known
model-id prefix table (substring containment, in dict insertion order),
else 8 GiB for video, 6 GiB otherwise. -/
def vramRequirements : List (String × ℚ) :=
  [("stabilityai/stable-diffusion-xl", 8),
   ("stabilityai/sdxl-turbo", 8),
   ("runwayml/stable-diffusion-v1-5", 4),
   ("black-forest-labs/FLUX.1-schnell", 12),
   ("black-forest-labs/FLUX.1-dev", 24),
   ("ali-vilab/text-to-video", 8)]

/-- Python substring containment needle in hay, on character lists. -/
def charListIsPrefix : List Char → List Char → Bool
  | [], _ => true
  | _ :: _, [] => false
  | a :: as, b :: bs => decide (a = b) && charListIsPrefix as bs

/-- Python substring containment key in model_id. -/
def charListContains (needle : List Char) : List Char → Bool
  | [] => charListIsPrefix needle []
  | c :: rest => charListIsPrefix needle (c :: rest) || charListContains needle rest

/-- Python str containment: needle in hay. -/
def strContains (hay needle : String) : Bool :=
  charListContains needle.toList hay.toList

/-- TaskDistributor._estimate_vram_requirement. -/
def estimateVram (taskType : String) (modelId : String) : ℚ :=
  match vramRequirements.find? (fun kv => strContains modelId kv.1) with
  | some kv => kv.2
  | none => if taskType = "video" then 8 else 6

/-- Sort key of _select_best_worker: (compute_power, free_vram_gb),
compared as Python compares tuples (lexicographically). -/
def workerKeyLt (a b : WorkerNode) : Prop :=
  a.computePower < b.computePower ∨
    (a.computePower = b.computePower ∧ a.freeVramGb < b.freeVramGb)

instance (a b : WorkerNode) : Decidable (workerKeyLt a b) := by
  unfold workerKeyLt; infer_instance

/-- Stable insertion step for descending sort by the worker key: an element
passes over strictly greater keys and lands before the first key not above
its own, exactly as Python list.sort(key=..., reverse=True) orders equal
keys (stable: earlier elements stay earlier). -/
def insertDesc (x : WorkerNode) : List WorkerNode → List WorkerNode
  | [] => [x]
  | y :: ys => if workerKeyLt x y then y :: insertDesc x ys else x :: y :: ys

/-- Python list.sort(key=lambda w: (w.compute_power, w.free_vram_gb),
reverse=True): stable descending sort. -/
def sortWorkersDesc : List WorkerNode → List WorkerNode
  | [] => []
  | x :: xs => insertDesc x (sortWorkersDesc xs)

/-- TaskDistributor._select_best_worker: filter the available workers by
free VRAM against the estimate, fall back to all available when the filter
is empty, sort descending by (compute_power, free_vram_gb) and take the
head. -/
def selectBestWorker (available : List WorkerNode) (taskType modelId : String) :
    Option WorkerNode :=
  match available with
  | [] => none
  | _ :: _ =>
    let required := estimateVram taskType modelId
    let filtered := available.filter (fun w => required ≤ w.freeVramGb)
    let suitable := if filtered.isEmpty then available else filtered
    (sortWorkersDesc suitable).head?

/-- A subtask produced by the batch split, with its enumerate index, the
derived id parent_part<i>, the target worker and its allotted batch
size. -/
structure SubtaskSpec where
  idx : Nat
  taskId : String
  workerId : String
  batchSize : Int
  deriving DecidableEq

/-- The worker_batch of one loop iteration of _split_batch_task: the
final worker (empty tail) absorbs remaining, a non-final worker gets
max(1, int(batch_size * compute_power / total_power)).  Python's int()
truncation on the nonnegative quotient is the rational floor. -/
def splitWorkerBatch (batchSize : Nat) (totalPower : ℚ) (w : WorkerNode)
    (rest : List WorkerNode) (remaining : Int) : Int :=
  if rest.isEmpty then remaining
  else max 1 (Rat.floor ((batchSize : ℚ) * w.computePower / totalPower))

/-- The remaining count carried out of one loop iteration: unchanged for
the final worker, decremented by worker_batch otherwise. -/
def splitRemaining (batchSize : Nat) (totalPower : ℚ) (w : WorkerNode)
    (rest : List WorkerNode) (remaining : Int) : Int :=
  if rest.isEmpty then remaining
  else remaining - splitWorkerBatch batchSize totalPower w rest remaining

/-- Loop body of TaskDistributor._split_batch_task: walk the worker list
with the enumerate index and the remaining count (an integer: the source
lets it go negative); break when remaining <= 0; emit the subtask with
the derived id parent_part i when its worker_batch is positive. -/
def splitGo (batchSize : Nat) (totalPower : ℚ) (parentId : String) :
    List WorkerNode → Nat → Int → List SubtaskSpec
  | [], _, _ => []
  | w :: rest, i, remaining =>
    if remaining ≤ 0 then []
    else if 0 < splitWorkerBatch batchSize totalPower w rest remaining then
      { idx := i, taskId := parentId ++ "_part" ++ toString i,
        workerId := w.id,
        batchSize := splitWorkerBatch batchSize totalPower w rest remaining } ::
        splitGo batchSize totalPower parentId rest (i + 1)
          (splitRemaining batchSize totalPower w rest remaining)
    else
      splitGo batchSize totalPower parentId rest (i + 1)
        (splitRemaining batchSize totalPower w rest remaining)

/-- TaskDistributor._split_batch_task. -/
def splitBatchTask (parentId : String) (batchSize : Nat)
    (workers : List WorkerNode) : List SubtaskSpec :=
  splitGo batchSize (workers.map (·.computePower)).sum parentId workers 0 (batchSize : Int)

/-! Task map operations of TaskDistributor.  The tasks dict is modelled as
an association list in insertion order (Python dict semantics; ids are
unique keys). -/

/-- Lookup in the tasks dict. -/
def taskLookup (tasks : List (String × DistTask)) (taskId : String) :
    Option DistTask :=
  match tasks.find? (fun kv => kv.1 = taskId) with
  | some kv => some kv.2
  | none => none

/-- Replace the value stored under an existing key. -/
def taskReplace (tasks : List (String × DistTask)) (taskId : String)
    (t : DistTask) : List (String × DistTask) :=
  tasks.map (fun kv => if kv.1 = taskId then (kv.1, t) else kv)

/-- TaskDistributor.cancel_task: if the id is known and its status is
PENDING or QUEUED, set the status to CANCELLED and return True, else
return False. -/
def cancelDistTask (tasks : List (String × DistTask)) (taskId : String) :
    List (String × DistTask) × Bool :=
  match taskLookup tasks taskId with
  | some t =>
    if t.status = DistStatus.pending ∨ t.status = DistStatus.queued then
      (taskReplace tasks taskId { t with status := DistStatus.cancelled }, true)
    else (tasks, false)
  | none => (tasks, false)

/-- TaskDistributor.update_task_result: for a known id, set FAILED with
the error when an error is given, else COMPLETED with the result — with no
check of the current status.  For an id that is only a recorded subtask of
some task, _update_subtask_result is a pass, so the arriving result is
dropped.  Unknown ids are dropped. -/
def updateTaskResult (tasks : List (String × DistTask)) (taskId : String)
    (result : Option String) (error : Option String) :
    List (String × DistTask) :=
  match taskLookup tasks taskId with
  | some t =>
    let t2 :=
      match error with
      | some e => { t with status := DistStatus.failed, error := some e }
      | none => { t with status := DistStatus.completed, result := result }
    taskReplace tasks taskId t2
  | none => tasks

/-! Priority queue of TaskDistributor.  submit puts the pair
(-priority.value, task_id) on an asyncio.PriorityQueue; get returns the
smallest entry in the lexicographic tuple order Python uses. -/

/-- A queue entry (-priority.value, task_id). -/
def queueEntry (p : TaskPriority) (taskId : String) : Int × String :=
  (-(p.val : Int), taskId)

/-- Strict tuple order on queue entries, as Python compares the pairs
inside the heap. -/
def entryLt (a b : Int × String) : Prop :=
  a.1 < b.1 ∨ (a.1 = b.1 ∧ strLt a.2 b.2 = true)

instance (a b : Int × String) : Decidable (entryLt a b) := by
  unfold entryLt; infer_instance

/-- The minimum entry of a nonempty queue: fold keeping the earlier entry
unless a strictly smaller one appears. -/
def queueMin (e : Int × String) (rest : List (Int × String)) : Int × String :=
  rest.foldl (fun best x => if entryLt x best then x else best) e

/-- PriorityQueue.get on the modelled queue contents: remove and return
the minimum entry of the multiset. -/
def popMin (q : List (Int × String)) :
    Option ((Int × String) × List (Int × String)) :=
  match q with
  | [] => none
  | e :: rest =>
    let m := queueMin e rest
    some (m, q.erase m)

/-- One iteration of TaskDistributor._distribution_loop, up to the choice
of worker: pop the minimum entry; if the id is unknown, continue; if the
task's status is CANCELLED, continue; otherwise the task goes on to
_distribute_task.  Returns the id dispatched (if any) and the remaining
queue contents. -/
def distributionStep (tasks : List (String × DistTask))
    (q : List (Int × String)) : Option String × List (Int × String) :=
  match popMin q with
  | none => (none, q)
  | some (e, rest) =>
    match taskLookup tasks e.2 with
    | none => (none, rest)
    | some t =>
      if t.status = DistStatus.cancelled then (none, rest)
      else (some e.2, rest)

/-! ## Pool task submission and auto mode (pool_manager.py) -/

/-- The task dict built by GPUPoolManager.submit_task.  Its keys are
exactly task_id, type, request, mode, batch_size and submitted_at; the
timestamp is elided. -/
structure PoolTask where
  taskId : String
  type : String
  request : GenRequest
  mode : DistributionMode
  batchSize : Nat
  deriving DecidableEq

/-- GPUPoolManager.submit_task: build the task dict; a None mode argument
falls back to the manager's distribution_mode. -/
def poolSubmitTask (taskId taskType : String) (request : GenRequest)
    (mode : Option DistributionMode) (defaultMode : DistributionMode) : PoolTask :=
  { taskId := taskId, type := taskType, request := request,
    mode := mode.getD defaultMode, batchSize := request.batchSize }

/-- The lookup task.get("requires_large_vram", False) in
GPUPoolManager._distribute_task: the task dict built by submit_task never
carries that key, so the default False is always returned. -/
def poolTaskGetRequiresLargeVram (_t : PoolTask) : Bool := false

/-- Mode decision of GPUPoolManager._distribute_task: explicit PARALLEL
and COMBINED are followed; in the auto branch the task is distributed
combined only when the requires_large_vram lookup on the task dict is
truthy, else parallel. -/
def distributeChoice (t : PoolTask) : DistributionMode :=
  match t.mode with
  | .parallel => .parallel
  | .combined => .combined
  | .auto =>
    if poolTaskGetRequiresLargeVram t then .combined else .parallel

/-! ## Worker control client reconnection (gpu-worker/postx_worker/worker.py) -/

/-- GPUWorker initial reconnect delay (self._reconnect_delay = 5). -/
def reconnectDelayInit : Nat := 5

/-- GPUWorker maximum reconnect delay (self._max_reconnect_delay = 60). -/
def reconnectDelayMax : Nat := 60

/-- One iteration of GPUWorker._connection_loop, as a function of the
delay carried into the iteration and whether the connection attempt
succeeded before the channel was lost.  On success the delay is reset to
the initial value before the channel runs; after the loss the loop sleeps
the current delay and then doubles it, capped at the maximum.  Returns
(the delay slept before the next attempt, the delay carried forward). -/
def connectionStep (delay : Nat) (connected : Bool) : Nat × Nat :=
  let d := if connected then reconnectDelayInit else delay
  (d, min (d * 2) reconnectDelayMax)

/-- The delay carried after k consecutive failed attempts following a
reset (the start of the loop, or the most recent successful
connection). -/
def delayAfterFailures : Nat → Nat
  | 0 => reconnectDelayInit
  | k + 1 => (connectionStep (delayAfterFailures k) false).2

/-! ## Helper lemmas -/

theorem delayAfterFailures_closed (k : Nat) :
    delayAfterFailures k = min (5 * 2 ^ k) 60 := by
  induction k with
  | zero => simp [delayAfterFailures, reconnectDelayInit]
  | succ k ih =>
    have hpow : 5 * 2 ^ (k + 1) = 5 * 2 ^ k * 2 := by ring
    simp only [delayAfterFailures, connectionStep, Bool.false_eq_true, if_false,
      ih, reconnectDelayMax, hpow]
    omega

theorem baseWorkers_length (n : Nat) :
    (baseWorkers n).length = 9 * workersPerPlatform n := by
  simp [baseWorkers, platformsList]
  ring

theorem extraWorkers_eq_take (l : List Platform) (r : Int) :
    extraWorkers r l = l.take r.toNat := by
  induction l generalizing r with
  | nil => simp [extraWorkers]
  | cons p rest ih =>
    by_cases h : r ≤ 0
    · have h0 : r.toNat = 0 := by omega
      rw [extraWorkers, if_pos h, h0, List.take_zero]
    · have ht : r.toNat = (r - 1).toNat + 1 := by omega
      rw [extraWorkers, if_neg h, ht, List.take_succ_cons, ih]

set_option maxRecDepth 4000 in
theorem baseWorkers_count (n : Nat) (p : Platform) :
    (baseWorkers n).count p = workersPerPlatform n := by
  cases p <;> simp [baseWorkers, platformsList, List.count_append,
    List.count_replicate, List.count_nil]

theorem splitGo_batchSize_pos (B : Nat) (T : ℚ) (pid : String) :
    ∀ (ws : List WorkerNode) (i : Nat) (r : Int) (st : SubtaskSpec),
      st ∈ splitGo B T pid ws i r → 1 ≤ st.batchSize := by
  intro ws
  induction ws with
  | nil => intro i r st h; simp [splitGo] at h
  | cons w rest ih =>
    intro i r st h
    rw [splitGo] at h
    split at h
    · simp at h
    · split at h
      · rename_i hwb
        rcases List.mem_cons.mp h with hhead | htail
        · rw [hhead]
          show (1 : Int) ≤ splitWorkerBatch B T w rest r
          omega
        · exact ih _ _ _ htail
      · exact ih _ _ _ h

theorem splitGo_idx_ge (B : Nat) (T : ℚ) (pid : String) :
    ∀ (ws : List WorkerNode) (i : Nat) (r : Int) (st : SubtaskSpec),
      st ∈ splitGo B T pid ws i r → i ≤ st.idx := by
  intro ws
  induction ws with
  | nil => intro i r st h; simp [splitGo] at h
  | cons w rest ih =>
    intro i r st h
    rw [splitGo] at h
    split at h
    · simp at h
    · split at h
      · rcases List.mem_cons.mp h with hhead | htail
        · rw [hhead]
        · exact Nat.le_of_succ_le (ih _ _ _ htail)
      · exact Nat.le_of_succ_le (ih _ _ _ h)

theorem splitGo_pairwise_idx (B : Nat) (T : ℚ) (pid : String) :
    ∀ (ws : List WorkerNode) (i : Nat) (r : Int),
      (splitGo B T pid ws i r).Pairwise (fun a b => a.idx < b.idx) := by
  intro ws
  induction ws with
  | nil => intro i r; simp [splitGo]
  | cons w rest ih =>
    intro i r
    rw [splitGo]
    split
    · exact List.Pairwise.nil
    · split
      · refine List.Pairwise.cons ?_ (ih _ _)
        intro b hb
        have := splitGo_idx_ge B T pid _ _ _ _ hb
        simpa using Nat.lt_of_succ_le this
      · exact ih _ _

theorem splitGo_taskId_shape (B : Nat) (T : ℚ) (pid : String) :
    ∀ (ws : List WorkerNode) (i : Nat) (r : Int) (st : SubtaskSpec),
      st ∈ splitGo B T pid ws i r →
        st.taskId = pid ++ "_part" ++ toString st.idx := by
  intro ws
  induction ws with
  | nil => intro i r st h; simp [splitGo] at h
  | cons w rest ih =>
    intro i r st h
    rw [splitGo] at h
    split at h
    · simp at h
    · split at h
      · rcases List.mem_cons.mp h with hhead | htail
        · rw [hhead]
        · exact ih _ _ _ htail
      · exact ih _ _ _ h

theorem splitGo_sum_ge (B : Nat) (T : ℚ) (pid : String) :
    ∀ (ws : List WorkerNode) (i : Nat) (r : Int), ws ≠ [] → 0 < r →
      r ≤ ((splitGo B T pid ws i r).map (·.batchSize)).sum := by
  intro ws
  induction ws with
  | nil => intro i r hne; exact absurd rfl hne
  | cons w rest ih =>
    intro i r _ hr
    rw [splitGo, if_neg (by omega)]
    cases rest with
    | nil =>
      rw [if_pos (by simpa [splitWorkerBatch] using hr)]
      simp [splitGo, splitWorkerBatch]
    | cons w2 rest2 =>
      have hwb1 : 1 ≤ splitWorkerBatch B T w (w2 :: rest2) r := by
        rw [splitWorkerBatch, if_neg (by simp)]
        exact le_max_left _ _
      rw [if_pos (by omega)]
      rw [List.map_cons, List.sum_cons]
      dsimp only
      have hsr : splitRemaining B T w (w2 :: rest2) r =
          r - splitWorkerBatch B T w (w2 :: rest2) r := by
        rw [splitRemaining, if_neg (by simp)]
      by_cases h2 : 0 < splitRemaining B T w (w2 :: rest2) r
      · have htail := ih (i + 1) (splitRemaining B T w (w2 :: rest2) r)
          (by simp) h2
        omega
      · have htail : 0 ≤ ((splitGo B T pid (w2 :: rest2) (i + 1)
            (splitRemaining B T w (w2 :: rest2) r)).map (·.batchSize)).sum := by
          apply List.sum_nonneg
          intro x hx
          obtain ⟨st, hst, hstx⟩ := List.mem_map.mp hx
          have := splitGo_batchSize_pos B T pid _ _ _ _ hst
          omega
        omega

theorem workerKeyLt_irrefl (a : WorkerNode) : ¬ workerKeyLt a a := by
  simp [workerKeyLt]

theorem workerKeyLt_asymm {a b : WorkerNode} (h : workerKeyLt a b) :
    ¬ workerKeyLt b a := by
  rcases h with h1 | ⟨he, h2⟩ <;> rintro (g1 | ⟨ge, g2⟩)
  · exact absurd g1 (asymm h1)
  · rw [ge] at h1; exact lt_irrefl _ h1
  · rw [he] at g1; exact lt_irrefl _ g1
  · exact absurd g2 (asymm h2)

theorem workerKeyLt_progress {x m y : WorkerNode} (hxm : ¬ workerKeyLt x m)
    (hxy : workerKeyLt x y) : workerKeyLt m y := by
  simp only [workerKeyLt, not_or, not_and, not_lt] at hxm
  obtain ⟨h1, h2⟩ := hxm
  rcases hxy with hy1 | ⟨hye, hy2⟩
  · exact Or.inl (lt_of_le_of_lt h1 hy1)
  · rcases lt_or_eq_of_le h1 with hlt | heq
    · exact Or.inl (hye ▸ hlt)
    · have hfv := h2 heq.symm
      exact Or.inr ⟨heq.trans hye, lt_of_le_of_lt hfv hy2⟩

/-- The first element of a list attaining the maximal
(compute_power, free_vram_gb) key: the element a stable descending sort
puts at the head. -/
def firstMaxByKey : List WorkerNode → Option WorkerNode
  | [] => none
  | x :: xs =>
    match firstMaxByKey xs with
    | none => some x
    | some m => if workerKeyLt x m then some m else some x

theorem firstMaxByKey_eq_none_iff (l : List WorkerNode) :
    firstMaxByKey l = none ↔ l = [] := by
  cases l with
  | nil => simp [firstMaxByKey]
  | cons x xs =>
    rw [firstMaxByKey]
    cases h : firstMaxByKey xs
    · simp
    · simp only [List.cons_ne_nil, iff_false]
      split <;> simp

theorem firstMaxByKey_mem {l : List WorkerNode} {m : WorkerNode}
    (h : firstMaxByKey l = some m) : m ∈ l := by
  induction l generalizing m with
  | nil => simp [firstMaxByKey] at h
  | cons x xs ih =>
    rw [firstMaxByKey] at h
    cases hx : firstMaxByKey xs with
    | none =>
      rw [hx] at h
      have hxm : x = m := by simpa using h
      exact hxm ▸ List.mem_cons_self x xs
    | some m2 =>
      rw [hx] at h
      dsimp only at h
      by_cases hlt : workerKeyLt x m2
      · rw [if_pos hlt] at h
        have hm : m2 = m := by simpa using h
        exact List.mem_cons_of_mem _ (ih (hm ▸ hx))
      · rw [if_neg hlt] at h
        have hxm : x = m := by simpa using h
        exact hxm ▸ List.mem_cons_self x xs

theorem firstMaxByKey_max {l : List WorkerNode} {m : WorkerNode}
    (h : firstMaxByKey l = some m) : ∀ y ∈ l, ¬ workerKeyLt m y := by
  induction l generalizing m with
  | nil => simp [firstMaxByKey] at h
  | cons x xs ih =>
    rw [firstMaxByKey] at h
    cases hx : firstMaxByKey xs with
    | none =>
      rw [hx] at h
      have hxm : x = m := by simpa using h
      have hnil := (firstMaxByKey_eq_none_iff xs).mp hx
      subst hnil
      intro y hy
      have hyx : y = x := List.mem_singleton.mp hy
      subst hyx
      rw [← hxm]
      exact workerKeyLt_irrefl _
    | some m2 =>
      rw [hx] at h
      dsimp only at h
      by_cases hlt : workerKeyLt x m2
      · rw [if_pos hlt] at h
        have hm : m2 = m := by simpa using h
        subst hm
        intro y hy
        rcases List.mem_cons.mp hy with rfl | hmem
        · exact workerKeyLt_asymm hlt
        · exact ih hx y hmem
      · rw [if_neg hlt] at h
        have hxm : x = m := by simpa using h
        subst hxm
        intro y hy
        rcases List.mem_cons.mp hy with rfl | hmem
        · exact workerKeyLt_irrefl _
        · intro hcon
          exact ih hx y hmem (workerKeyLt_progress hlt hcon)

theorem insertDesc_head_cons (x y : WorkerNode) (ys : List WorkerNode) :
    (insertDesc x (y :: ys)).head? =
      some (if workerKeyLt x y then y else x) := by
  rw [insertDesc]
  split <;> simp

theorem sortWorkersDesc_head (l : List WorkerNode) :
    (sortWorkersDesc l).head? = firstMaxByKey l := by
  induction l with
  | nil => rfl
  | cons x xs ih =>
    rw [sortWorkersDesc, firstMaxByKey]
    cases h : sortWorkersDesc xs with
    | nil =>
      rw [h] at ih
      rw [← ih]
      simp [insertDesc]
    | cons y ys =>
      rw [h] at ih
      rw [← ih]
      simp only [List.head?_cons]
      rw [insertDesc_head_cons]
      split <;> rfl

theorem charListLt_connex (a : List Char) :
    ∀ b : List Char, a = b ∨ charListLt a b = true ∨ charListLt b a = true := by
  induction a with
  | nil =>
    intro b
    cases b with
    | nil => exact Or.inl rfl
    | cons y ys => exact Or.inr (Or.inl (by simp [charListLt]))
  | cons x xs ih =>
    intro b
    cases b with
    | nil => exact Or.inr (Or.inr (by simp [charListLt]))
    | cons y ys =>
      rcases lt_trichotomy x y with hlt | heq | hgt
      · exact Or.inr (Or.inl (by simp [charListLt, hlt]))
      · subst heq
        rcases ih ys with heqt | hab | hba
        · exact Or.inl (by rw [heqt])
        · exact Or.inr (Or.inl (by simp [charListLt, hab]))
        · exact Or.inr (Or.inr (by simp [charListLt, hba]))
      · exact Or.inr (Or.inr (by simp [charListLt, hgt]))

theorem strLt_connex (a b : String) :
    a = b ∨ strLt a b = true ∨ strLt b a = true := by
  rcases charListLt_connex a.toList b.toList with heq | h | h
  · left
    cases a with
    | mk da =>
      cases b with
      | mk db =>
        have hdata : da = db := by simpa [String.toList] using heq
        rw [hdata]
  · exact Or.inr (Or.inl h)
  · exact Or.inr (Or.inr h)

theorem entryLt_irrefl (e : Int × String) : ¬ entryLt e e := by
  simp [entryLt, strLt_irrefl]

theorem entryLt_trans {a b c : Int × String} (hab : entryLt a b)
    (hbc : entryLt b c) : entryLt a c := by
  rcases hab with h1 | ⟨he1, hs1⟩
  · rcases hbc with h2 | ⟨he2, _⟩
    · exact Or.inl (lt_trans h1 h2)
    · exact Or.inl (he2 ▸ h1)
  · rcases hbc with h2 | ⟨he2, hs2⟩
    · exact Or.inl (he1 ▸ h2)
    · exact Or.inr ⟨he1.trans he2, strLt_trans hs1 hs2⟩

theorem entryLt_connex (a b : Int × String) :
    a = b ∨ entryLt a b ∨ entryLt b a := by
  rcases lt_trichotomy a.1 b.1 with hlt | heq | hgt
  · exact Or.inr (Or.inl (Or.inl hlt))
  · rcases strLt_connex a.2 b.2 with hs | hs | hs
    · exact Or.inl (Prod.ext heq hs)
    · exact Or.inr (Or.inl (Or.inr ⟨heq, hs⟩))
    · exact Or.inr (Or.inr (Or.inr ⟨heq.symm, hs⟩))
  · exact Or.inr (Or.inr (Or.inl hgt))

theorem queueMin_mem (e : Int × String) (rest : List (Int × String)) :
    queueMin e rest ∈ e :: rest := by
  induction rest generalizing e with
  | nil => simp [queueMin]
  | cons x xs ih =>
    have hstep : queueMin e (x :: xs) =
        queueMin (if entryLt x e then x else e) xs := rfl
    rw [hstep]
    have := ih (e := if entryLt x e then x else e)
    rcases List.mem_cons.mp this with h1 | h2
    · rw [h1]
      split
      · exact List.mem_cons_of_mem _ (List.mem_cons_self _ _)
      · exact List.mem_cons_self _ _
    · exact List.mem_cons_of_mem _ (List.mem_cons_of_mem _ h2)

theorem queueMin_not_lt (e : Int × String) (rest : List (Int × String)) :
    ∀ y ∈ e :: rest, ¬ entryLt y (queueMin e rest) := by
  induction rest generalizing e with
  | nil =>
    intro y hy
    have hye : y = e := by simpa using hy
    subst hye
    simpa [queueMin] using entryLt_irrefl y
  | cons x xs ih =>
    intro y hy
    have hstep : queueMin e (x :: xs) =
        queueMin (if entryLt x e then x else e) xs := rfl
    rw [hstep]
    rcases List.mem_cons.mp hy with rfl | hmem
    · by_cases hxe : entryLt x y
      · rw [if_pos hxe]
        intro hcon
        have hxm := ih (e := x) x (List.mem_cons_self _ _)
        exact hxm (entryLt_trans hxe hcon)
      · rw [if_neg hxe]
        exact ih (e := y) y (List.mem_cons_self _ _)
    · rcases List.mem_cons.mp hmem with rfl | hmem2
      · by_cases hxe : entryLt y e
        · rw [if_pos hxe]
          exact ih (e := y) y (List.mem_cons_self _ _)
        · rw [if_neg hxe]
          intro hcon
          rcases entryLt_connex y e with heq | hlt | hgt
          · subst heq
            exact ih (e := y) y (List.mem_cons_self _ _) hcon
          · exact hxe hlt
          · exact ih (e := e) e (List.mem_cons_self _ _) (entryLt_trans hgt hcon)
      · by_cases hxe : entryLt x e
        · rw [if_pos hxe]
          exact ih (e := x) y (List.mem_cons_of_mem _ hmem2)
        · rw [if_neg hxe]
          exact ih (e := e) y (List.mem_cons_of_mem _ hmem2)

/-! ## Claim theorems -/

/-- Claim C2, counterexample: for batch size B = 4 and four available
workers of positive compute powers 1, 1, 10, 1 (in registry order, which
_distribute_combined uses unsorted), the split emits batch sizes 1, 1, 3
summing to 5 ≠ 4: the third worker's proportional share 3 overshoots the
remaining count 2, and the loop then breaks before the final worker, so
the sizes do not sum exactly to B. -/
theorem c2_batch_split_counterexample :
    (let mk : String → ℚ → WorkerNode := fun nm cp =>
      { id := nm, totalVramGb := 12, freeVramGb := 10,
        status := .online, currentTask := none, computePower := cp }
     let ws := [mk "u1" 1, mk "u2" 1, mk "u3" 10, mk "u4" 1]
     (1 : Nat) < 4 ∧ ws ≠ [] ∧ (∀ w ∈ ws, 0 < w.computePower) ∧
     (splitBatchTask "j" 4 ws).map (·.batchSize) = [1, 1, 3] ∧
     ((splitBatchTask "j" 4 ws).map (·.batchSize)).sum = 5) ∧
    (5 : Int) ≠ 4 := by
  refine ⟨⟨by norm_num, by simp, ?_, ?_, ?_⟩, by norm_num⟩
  · intro w hw
    fin_cases hw <;> norm_num
  · norm_num [splitBatchTask, splitGo, splitWorkerBatch, splitRemaining,
      Rat.floor_def']
  · norm_num [splitBatchTask, splitGo, splitWorkerBatch, splitRemaining,
      Rat.floor_def']

/-- Claim C2, amended: for every combined-mode batch split with B ≥ 1 and
a non-empty worker list of positive compute powers, the subtasks carry
pairwise-distinct indices i with ids parent_part i, each batch size is at
least 1 and the sizes sum to at least B (exactly B is not guaranteed when
the worker list is not sorted by descending compute power); in the cited
instance B = 6 with powers 2, 1, 1 the sizes are 3, 1, 2 summing to 6. -/
theorem c2_batch_split_amended :
    (∀ (pid : String) (batch : Nat) (ws : List WorkerNode),
      ws ≠ [] → 0 < batch → (∀ w ∈ ws, 0 < w.computePower) →
        (splitBatchTask pid batch ws).Pairwise (fun a b => a.idx ≠ b.idx) ∧
        (∀ st ∈ splitBatchTask pid batch ws, 1 ≤ st.batchSize) ∧
        (∀ st ∈ splitBatchTask pid batch ws,
          st.taskId = pid ++ "_part" ++ toString st.idx) ∧
        (batch : Int) ≤ ((splitBatchTask pid batch ws).map (·.batchSize)).sum) ∧
    (let mk : String → ℚ → WorkerNode := fun nm cp =>
      { id := nm, totalVramGb := 24, freeVramGb := 20,
        status := .online, currentTask := none, computePower := cp }
     (splitBatchTask "j1" 6 [mk "w1" 2, mk "w2" 1, mk "w3" 1]).map
        (·.batchSize) = [3, 1, 2]) := by
  constructor
  · intro pid batch ws hne hb _
    refine ⟨?_, ?_, ?_, ?_⟩
    · exact (splitGo_pairwise_idx _ _ _ _ _ _).imp Nat.ne_of_lt
    · intro st hst; exact splitGo_batchSize_pos _ _ _ _ _ _ _ hst
    · intro st hst; exact splitGo_taskId_shape _ _ _ _ _ _ _ hst
    · exact splitGo_sum_ge _ _ _ _ _ _ hne (by omega)
  · norm_num [splitBatchTask, splitGo, splitWorkerBatch, splitRemaining,
      Rat.floor_def']

/-- Claim C2, amended, witness: the general part applied to the cited
instance B = 6 with three positive-power workers. -/
theorem c2_batch_split_amended_witness :
    (let mk : String → ℚ → WorkerNode := fun nm cp =>
      { id := nm, totalVramGb := 24, freeVramGb := 20,
        status := .online, currentTask := none, computePower := cp }
     let ws := [mk "w1" 2, mk "w2" 1, mk "w3" 1]
     ws ≠ [] ∧ 0 < 6 ∧ (∀ w ∈ ws, 0 < w.computePower) ∧
     ((splitBatchTask "j1" 6 ws).Pairwise (fun a b => a.idx ≠ b.idx) ∧
      (∀ st ∈ splitBatchTask "j1" 6 ws, 1 ≤ st.batchSize) ∧
      (∀ st ∈ splitBatchTask "j1" 6 ws,
        st.taskId = "j1" ++ "_part" ++ toString st.idx) ∧
      (6 : Int) ≤ ((splitBatchTask "j1" 6 ws).map (·.batchSize)).sum)) := by
  refine ⟨by simp, by norm_num, ?_, ?_⟩
  · intro w hw
    fin_cases hw <;> norm_num
  · exact c2_batch_split_amended.1 "j1" 6 _ (by simp) (by norm_num)
      (by intro w hw; fin_cases hw <;> norm_num)

/-- Claim C5, counterexample: two available workers with exactly equal
compute power and free VRAM, registered in the order wb then wa.  The
stable descending sort keeps the registration order on the tie, so the
selection returns wb, not the worker with the lexicographically lower id
wa: the claimed id tie-break does not hold. -/
theorem c5_worker_selection_counterexample :
    (let wb : WorkerNode :=
      { id := "wb", totalVramGb := 12, freeVramGb := 10,
        status := .online, currentTask := none, computePower := 1 }
     let wa : WorkerNode := { wb with id := "wa" }
     selectBestWorker [wb, wa] "image" "" = some wb ∧
     wa.computePower = wb.computePower ∧ wa.freeVramGb = wb.freeVramGb ∧
     strLt wa.id wb.id = true) ∧
    ("wa" : String) ≠ "wb" := by
  refine ⟨⟨?_, rfl, rfl, by decide⟩, by decide⟩
  decide

/-- Claim C5, amended: worker selection returns no worker exactly when no
worker is available; a returned worker belongs to the VRAM-filtered set
(all available workers when the filter is empty), carries a maximal
(compute power, free VRAM) key there, and is the first worker of that set
attaining the maximal key — exact ties are broken by position in the
available list (registration order), not by lexicographically lower
worker id. -/
theorem c5_worker_selection_amended :
    (∀ (available : List WorkerNode) (taskType modelId : String),
      selectBestWorker available taskType modelId = none ↔ available = []) ∧
    (∀ (available : List WorkerNode) (taskType modelId : String)
        (w : WorkerNode),
      selectBestWorker available taskType modelId = some w →
        (let filtered := available.filter
          (fun v => estimateVram taskType modelId ≤ v.freeVramGb)
         let suitable := if filtered.isEmpty then available else filtered
         w ∈ suitable ∧ (∀ y ∈ suitable, ¬ workerKeyLt w y) ∧
           firstMaxByKey suitable = some w)) := by
  constructor
  · intro available taskType modelId
    cases available with
    | nil => simp [selectBestWorker]
    | cons a as =>
      simp only [selectBestWorker, List.head?_eq_none_iff]
      constructor
      · intro h
        exfalso
        have hempty : (if (List.filter
            (fun v => decide (estimateVram taskType modelId ≤ v.freeVramGb))
            (a :: as)).isEmpty then a :: as
          else List.filter
            (fun v => decide (estimateVram taskType modelId ≤ v.freeVramGb))
            (a :: as)) = [] := by
          cases hs : sortWorkersDesc (if (List.filter
              (fun v => decide (estimateVram taskType modelId ≤ v.freeVramGb))
              (a :: as)).isEmpty then a :: as
            else List.filter
              (fun v => decide (estimateVram taskType modelId ≤ v.freeVramGb))
              (a :: as)) with
          | nil =>
            have := sortWorkersDesc_head (if (List.filter
                (fun v => decide (estimateVram taskType modelId ≤ v.freeVramGb))
                (a :: as)).isEmpty then a :: as
              else List.filter
                (fun v => decide (estimateVram taskType modelId ≤ v.freeVramGb))
                (a :: as))
            rw [hs] at this
            exact (firstMaxByKey_eq_none_iff _).mp this.symm
          | cons b bs => rw [hs] at h; simp at h
        split at hempty
        · exact List.cons_ne_nil a as hempty
        · rename_i hne
          rw [hempty] at hne
          simp at hne
      · intro h
        exact absurd h (List.cons_ne_nil a as)
  · intro available taskType modelId w hsel
    have hform : firstMaxByKey (if (available.filter
        (fun v => decide (estimateVram taskType modelId ≤ v.freeVramGb))).isEmpty
        then available
        else available.filter
          (fun v => decide (estimateVram taskType modelId ≤ v.freeVramGb))) =
        some w := by
      cases available with
      | nil => simp [selectBestWorker] at hsel
      | cons a as =>
        simp only [selectBestWorker] at hsel
        rw [sortWorkersDesc_head] at hsel
        exact hsel
    exact ⟨firstMaxByKey_mem hform, firstMaxByKey_max hform, hform⟩

/-- Claim C5, amended, witness: selection on a concrete two-worker list
returns a worker satisfying the amended characterization. -/
theorem c5_worker_selection_amended_witness :
    (let w1 : WorkerNode :=
      { id := "w1", totalVramGb := 24, freeVramGb := 20,
        status := .online, currentTask := none, computePower := 2 }
     let w2 : WorkerNode :=
      { id := "w2", totalVramGb := 12, freeVramGb := 10,
        status := .online, currentTask := none, computePower := 1 }
     selectBestWorker [w1, w2] "image" "" = some w1 ∧
     (let filtered := [w1, w2].filter
        (fun v => estimateVram "image" "" ≤ v.freeVramGb)
      let suitable := if filtered.isEmpty then [w1, w2] else filtered
      w1 ∈ suitable ∧ (∀ y ∈ suitable, ¬ workerKeyLt w1 y) ∧
        firstMaxByKey suitable = some w1)) := by
  refine ⟨by decide, ?_⟩
  exact c5_worker_selection_amended.2 _ "image" "" _ (by decide)

/-- Claim C8, counterexample: two jobs of equal NORMAL priority submitted
in the order z then a.  The heap entries are (-2, z) and (-2, a), and the
pop returns the tuple-minimal entry (-2, a): job a is dispatched first
even though z was submitted first, so equal-priority dispatch follows
lexicographic task-id order, not submission order. -/
theorem c8_priority_order_counterexample :
    (let tz : DistTask :=
      { id := "z", type := "image", request := {}, priority := .normal,
        mode := .parallel, status := .pending, assignedWorkers := [],
        subtasks := [], result := none, error := none }
     let ta : DistTask := { tz with id := "a" }
     let tasks := [("z", tz), ("a", ta)]
     let q := [queueEntry .normal "z", queueEntry .normal "a"]
     (queueEntry .normal "z").1 = (queueEntry .normal "a").1 ∧
     distributionStep tasks q = (some "a", [queueEntry .normal "z"])) ∧
    ("a" : String) ≠ "z" := by
  refine ⟨⟨rfl, ?_⟩, by decide⟩
  decide

/-- Claim C8, amended: the distributor pops the queue entry that is
minimal in the lexicographic order on (-priority, task id) — so dispatch
is in non-increasing priority order, with equal-priority ties broken by
the lexicographically smaller task id rather than submission order — and
a job whose status is cancelled when popped is skipped: nothing is
dispatched and the entry is consumed. -/
theorem c8_priority_order_amended :
    (∀ (q : List (Int × String)) (m : Int × String)
        (rest : List (Int × String)),
      popMin q = some (m, rest) →
        m ∈ q ∧ rest = q.erase m ∧
          ∀ y ∈ q, m.1 ≤ y.1 ∧ (m.1 = y.1 → strLt y.2 m.2 = false)) ∧
    (∀ (tasks : List (String × DistTask)) (q : List (Int × String))
        (m : Int × String) (rest : List (Int × String)) (t : DistTask),
      popMin q = some (m, rest) → taskLookup tasks m.2 = some t →
        t.status = DistStatus.cancelled →
          distributionStep tasks q = (none, rest)) := by
  constructor
  · intro q m rest h
    cases q with
    | nil => simp [popMin] at h
    | cons e es =>
      rw [popMin] at h
      simp only [Option.some.injEq, Prod.mk.injEq] at h
      obtain ⟨hm, hrest⟩ := h
      refine ⟨hm ▸ queueMin_mem e es, by rw [← hm, hrest], ?_⟩
      intro y hy
      have hnot := queueMin_not_lt e es y hy
      rw [hm] at hnot
      simp only [entryLt, not_or, not_and, not_lt] at hnot
      obtain ⟨h1, h2⟩ := hnot
      refine ⟨h1, ?_⟩
      intro heq
      rcases hs : strLt y.2 m.2 with _ | _
      · rfl
      · exact absurd (h2 heq.symm hs) (by simp)
  · intro tasks q m rest t hpop hlook hcan
    simp [distributionStep, hpop, hlook, hcan]

/-- Claim C8, amended, witness: popping a concrete queue with distinct
priorities, and skipping a concrete cancelled job. -/
theorem c8_priority_order_amended_witness :
    (popMin [((-2 : Int), "b"), ((-1 : Int), "a")] =
        some (((-2 : Int), "b"), [((-1 : Int), "a")]) ∧
      (((-2 : Int), "b") ∈ [((-2 : Int), "b"), ((-1 : Int), "a")] ∧
        [((-1 : Int), "a")] =
          [((-2 : Int), "b"), ((-1 : Int), "a")].erase ((-2 : Int), "b") ∧
        ∀ y ∈ [((-2 : Int), "b"), ((-1 : Int), "a")],
          ((-2 : Int), "b").1 ≤ y.1 ∧
            (((-2 : Int), "b").1 = y.1 → strLt y.2 "b" = false))) ∧
    distributionStep
        [("c", { id := "c", type := "image", request := {},
                 priority := .normal, mode := .parallel,
                 status := .cancelled, assignedWorkers := [], subtasks := [],
                 result := none, error := none })]
        [((-2 : Int), "c")] =
      (none, []) := by
  constructor
  · refine ⟨by decide, ?_⟩
    exact c8_priority_order_amended.1 _ _ _ (by decide)
  · exact c8_priority_order_amended.2 _ _ ((-2 : Int), "c") []
      { id := "c", type := "image", request := {},
        priority := TaskPriority.normal, mode := DistributionMode.parallel,
        status := DistStatus.cancelled, assignedWorkers := [], subtasks := [],
        result := none, error := none }
      (by decide) (by decide) rfl

/-- The disjointness invariant of claim C10: no task id is present in
both the active map and the completed map. -/
def MapsDisjoint (st : OrchState) : Prop :=
  ∀ k, st.active k = none ∨ st.completed k = none

/-- Claim C10: submit_task writes only the active map (first conjunct)
and preserves disjointness for a fresh task id; cancel_task and the
result collector move the record from the active map to the completed map
and preserve disjointness; and cancel_task returns True exactly when the
id was in the active map. -/
theorem c10_active_completed_disjoint :
    (∀ (st : OrchState) (t : TaskData),
      (submitTask st t).completed = st.completed) ∧
    (∀ (st : OrchState) (t : TaskData), MapsDisjoint st →
      st.completed t.id = none → MapsDisjoint (submitTask st t)) ∧
    (∀ (st : OrchState) (taskId : String), MapsDisjoint st →
      MapsDisjoint (cancelTask st taskId).1) ∧
    (∀ (st : OrchState) (r : WorkerResult), MapsDisjoint st →
      MapsDisjoint (processResult st r)) ∧
    (∀ (st : OrchState) (taskId : String),
      (cancelTask st taskId).2 = true ↔ st.active taskId ≠ none) := by
  refine ⟨fun st t => rfl, ?_, ?_, ?_, ?_⟩
  · intro st t hd hf k
    by_cases hk : k = t.id
    · subst hk
      exact Or.inr hf
    · rcases hd k with h | h
      · exact Or.inl (by simpa [submitTask, mapSet, hk] using h)
      · exact Or.inr h
  · intro st taskId hd k
    cases h : st.active taskId with
    | none => simpa [cancelTask, h] using hd k
    | some td =>
      by_cases hk : k = taskId
      · subst hk
        exact Or.inl (by simp [cancelTask, h, mapDel])
      · rcases hd k with hh | hh
        · exact Or.inl (by simpa [cancelTask, h, mapDel, hk] using hh)
        · exact Or.inr (by simpa [cancelTask, h, mapSet, hk] using hh)
  · intro st r hd k
    cases h : st.active r.taskId with
    | none => simpa [processResult, h] using hd k
    | some td =>
      by_cases hk : k = r.taskId
      · subst hk
        exact Or.inl (by simp [processResult, h, mapDel])
      · rcases hd k with hh | hh
        · exact Or.inl (by simpa [processResult, h, mapDel, hk] using hh)
        · exact Or.inr (by simpa [processResult, h, mapSet, hk] using hh)
  · intro st taskId
    cases h : st.active taskId with
    | none => simp [cancelTask, h]
    | some td => simp [cancelTask, h]

/-- Claim C10, witness: the operations applied to a concrete empty state
and a concrete task keep the two maps disjoint, and cancel returns the
membership of the id in the active map. -/
theorem c10_active_completed_disjoint_witness :
    (let st0 : OrchState :=
      { active := fun _ => none, completed := fun _ => none,
        pending := fun _ => [], mailbox := fun _ => [], outbound := [],
        tasksProcessed := 0, tasksFailed := 0, tasksQueued := 0 }
     let t0 : TaskData :=
      { id := "t1", platform := .facebook, status := "pending",
        retries := 0, result := none, error := none }
     MapsDisjoint st0 ∧ st0.completed t0.id = none ∧
     MapsDisjoint (submitTask st0 t0) ∧
     MapsDisjoint (cancelTask st0 "t1").1 ∧
     MapsDisjoint (processResult st0
       { workerId := 0, taskId := "t1", status := "completed",
         result := none, error := none }) ∧
     ((cancelTask st0 "t1").2 = true ↔ st0.active "t1" ≠ none)) := by
  refine ⟨fun k => Or.inl rfl, rfl, ?_, ?_, ?_, ?_⟩
  · exact c10_active_completed_disjoint.2.1 _ _ (fun k => Or.inl rfl) rfl
  · exact c10_active_completed_disjoint.2.2.1 _ _ (fun k => Or.inl rfl)
  · exact c10_active_completed_disjoint.2.2.2.1 _ _ (fun k => Or.inl rfl)
  · exact c10_active_completed_disjoint.2.2.2.2 _ _

/-- Claim C4, counterexample: cancelling an active task succeeds and puts
the record with terminal status cancelled into completed_tasks, but
pushes nothing to the outbound results key — the outbound list stays
empty, so no record with the terminal status reaches backend results. -/
theorem c4_terminal_outbound_counterexample :
    (let td0 : TaskData :=
      { id := "t1", platform := .twitter, status := "pending", retries := 0,
        result := none, error := none }
     let st0 : OrchState :=
      { active := fun k => if k = "t1" then some td0 else none,
        completed := fun _ => none, pending := fun _ => [],
        mailbox := fun _ => [], outbound := [], tasksProcessed := 0,
        tasksFailed := 0, tasksQueued := 0 }
     (cancelTask st0 "t1").2 = true ∧
     ((cancelTask st0 "t1").1.completed "t1").map (·.status) =
       some "cancelled" ∧
     (cancelTask st0 "t1").1.outbound = []) ∧
    ([] : List TaskData).length = 0 := by
  refine ⟨⟨by decide, by decide, by decide⟩, rfl⟩

/-- Claim C4, amended: a task that reaches a terminal status through the
result collector is pushed to the outbound key with matching id and that
status; but a task cancelled through cancel_task reaches the terminal
status cancelled with no outbound push (cancel_task leaves the outbound
list untouched). -/
theorem c4_terminal_outbound_amended :
    (∀ (st : OrchState) (r : WorkerResult) (td : TaskData),
      st.active r.taskId = some td → td.id = r.taskId →
        ∃ rec ∈ (processResult st r).outbound,
          rec.id = r.taskId ∧ rec.status = r.status) ∧
    (∀ (st : OrchState) (taskId : String),
      (cancelTask st taskId).1.outbound = st.outbound) := by
  constructor
  · intro st r td h hid
    have hmem : ({ td with status := r.status, result := r.result, error := r.error } : TaskData) ∈ (processResult st r).outbound := by
      simp [processResult, h]
    exact ⟨_, hmem, hid, rfl⟩
  · intro st taskId
    cases h : st.active taskId <;> simp [cancelTask, h]

/-- Claim C4, amended, witness: a concrete completed result is pushed
outbound, and a concrete cancel pushes nothing. -/
theorem c4_terminal_outbound_amended_witness :
    (let td0 : TaskData :=
      { id := "t1", platform := .twitter, status := "running", retries := 0,
        result := none, error := none }
     let st0 : OrchState :=
      { active := fun k => if k = "t1" then some td0 else none,
        completed := fun _ => none, pending := fun _ => [],
        mailbox := fun _ => [], outbound := [], tasksProcessed := 0,
        tasksFailed := 0, tasksQueued := 0 }
     let r0 : WorkerResult :=
      { workerId := 0, taskId := "t1", status := "completed",
        result := some "ok", error := none }
     st0.active r0.taskId = some td0 ∧ td0.id = r0.taskId ∧
     (∃ rec ∈ (processResult st0 r0).outbound,
        rec.id = r0.taskId ∧ rec.status = r0.status) ∧
     (cancelTask st0 "t1").1.outbound = st0.outbound) := by
  constructor
  · rfl
  constructor
  · rfl
  constructor
  · exact c4_terminal_outbound_amended.1 _ _ _ rfl rfl
  · exact c4_terminal_outbound_amended.2 _ _

/-- Claim C9: the worker control client sleeps the current reconnect delay
before the next attempt after a channel loss; consecutive failed attempts
double the delay up to a 60-second maximum, the initial delay is
5 seconds, and a successful connection resets the delay to 5 seconds (so
after k consecutive failures the carried delay is min(5·2^k, 60)). -/
theorem c9_reconnect_backoff :
    reconnectDelayInit = 5 ∧ reconnectDelayMax = 60 ∧
    (∀ delay : Nat, (connectionStep delay false).1 = delay) ∧
    (∀ delay : Nat, (connectionStep delay false).2 = min (delay * 2) 60) ∧
    (∀ delay : Nat, (connectionStep delay true).1 = 5) ∧
    (∀ delay : Nat, (connectionStep delay true).2 = 10) ∧
    (∀ k : Nat, delayAfterFailures k = min (5 * 2 ^ k) 60) := by
  refine ⟨rfl, rfl, fun d => rfl, fun d => rfl, fun d => rfl, fun d => rfl,
    delayAfterFailures_closed⟩

/-- Claim C7, counterexample: with N = 14 cores and the nine platforms,
the initialization creates 9·max(1, ⌊14/9⌋) + min(4, 14 − 9) = 13
workers, not 14: the remainder 5 exceeds the four high-traffic platforms,
so the claimed total of exactly N workers fails. -/
theorem c7_allocation_counterexample :
    (initWorkers 14).length = 13 ∧ (13 : Nat) ≠ 14 := by
  constructor
  · decide
  · decide

/-- Claim C7, amended: each platform receives max(1, ⌊N/9⌋) base workers
(not ⌊N/9⌋); the extra loop hands one worker each to Facebook, Instagram,
TikTok, LINE, stopping when the (possibly negative) remainder
N − 9·max(1, ⌊N/9⌋) or the four-platform list runs out; hence the total
is 9·max(1, ⌊N/9⌋) + min(4, max(0, N − 9·max(1, ⌊N/9⌋))), which equals N
exactly when N ≥ 9 and N mod 9 ≤ 4. -/
theorem c7_allocation_amended (n : Nat) :
    initWorkers n = baseWorkers n ++
      highTrafficPlatforms.take ((n : Int) - 9 * workersPerPlatform n).toNat ∧
    (∀ p : Platform, (baseWorkers n).count p = workersPerPlatform n) ∧
    (initWorkers n).length =
      9 * workersPerPlatform n +
        min 4 ((n : Int) - 9 * workersPerPlatform n).toNat ∧
    (9 ≤ n → n % 9 ≤ 4 → (initWorkers n).length = n) := by
  have hbase := baseWorkers_length n
  have htake := extraWorkers_eq_take highTrafficPlatforms
    ((n : Int) - (baseWorkers n).length)
  have hcast : ((n : Int) - (baseWorkers n).length) =
      ((n : Int) - 9 * workersPerPlatform n) := by
    rw [hbase]; push_cast; ring
  rw [hcast] at htake
  constructor
  · rw [initWorkers, hcast, htake]
  constructor
  · exact baseWorkers_count n
  constructor
  · rw [initWorkers, List.length_append, hcast, htake, hbase, List.length_take]
    simp [highTrafficPlatforms]
    omega
  · intro h9 hmod
    rw [initWorkers, List.length_append, hcast, htake, hbase, List.length_take]
    simp only [highTrafficPlatforms, List.length_cons, List.length_nil]
    have hw : workersPerPlatform n = n / 9 := by
      have : 1 ≤ n / 9 := Nat.one_le_div_iff (by omega) |>.mpr h9
      simp [workersPerPlatform, platformsList]
      omega
    rw [hw]
    omega

/-- Claim C7, amended, witness at N = 22: 9 ≤ 22, 22 mod 9 = 4 ≤ 4, and
exactly 22 workers are created. -/
theorem c7_allocation_amended_witness :
    9 ≤ 22 ∧ 22 % 9 ≤ 4 ∧ (initWorkers 22).length = 22 :=
  ⟨by decide, by decide,
    (c7_allocation_amended 22).2.2.2 (by decide) (by decide)⟩

/-- Claim C6, counterexample: a job whose request sets requires_large_vram
(and whose model FLUX.1-dev needs an estimated 24 GiB) is dispatched in
parallel mode by the auto branch, because _distribute_task reads
requires_large_vram from the queued task dict, which submit_task never
populates — the claimed combined dispatch does not happen. -/
theorem c6_auto_mode_counterexample :
    (let req : GenRequest :=
      { batchSize := 1, modelId := "black-forest-labs/FLUX.1-dev",
        requiresLargeVram := true }
     distributeChoice
        (poolSubmitTask "j2" "video" req (some .auto) .parallel) =
       DistributionMode.parallel ∧
     req.requiresLargeVram = true ∧
     estimateVram "video" req.modelId = 24) ∧
    DistributionMode.parallel ≠ DistributionMode.combined := by
  refine ⟨⟨rfl, rfl, by decide⟩, by decide⟩

/-- Claim C6, amended: the auto branch never consults any VRAM estimate;
it reads requires_large_vram from the queued task dict, a key submit_task
never sets, so every job dispatched in auto mode is distributed in
parallel mode. -/
theorem c6_auto_mode_amended :
    (∀ (taskId taskType : String) (req : GenRequest) (dm : DistributionMode),
      (poolSubmitTask taskId taskType req (some .auto) dm).mode =
        DistributionMode.auto) ∧
    (∀ t : PoolTask, t.mode = DistributionMode.auto →
      distributeChoice t = DistributionMode.parallel) := by
  constructor
  · intro _ _ _ _; rfl
  · intro t ht
    simp [distributeChoice, ht, poolTaskGetRequiresLargeVram]

/-- Claim C6, amended, witness at a concrete auto-mode job. -/
theorem c6_auto_mode_amended_witness :
    ({ taskId := "j", type := "image", request := {},
       mode := DistributionMode.auto, batchSize := 1 } : PoolTask).mode =
        DistributionMode.auto ∧
    distributeChoice
      { taskId := "j", type := "image", request := {},
        mode := DistributionMode.auto, batchSize := 1 } =
      DistributionMode.parallel :=
  ⟨rfl, c6_auto_mode_amended.2 _ rfl⟩

/-- Claim C3: after cancel_task succeeds on a pending job, a subsequent
update_task_result for the same id overwrites the cancelled status with
completed and stores the arriving result, instead of leaving the record
cancelled and discarding the result; evaluated on job j1. -/
theorem c3_cancel_then_update_overwrites :
    (let t0 : DistTask :=
      { id := "j1", type := "image", request := {}, priority := .normal,
        mode := .parallel, status := .pending, assignedWorkers := [],
        subtasks := [], result := none, error := none }
     let tasks0 := [("j1", t0)]
     let afterCancel := cancelDistTask tasks0 "j1"
     afterCancel.2 = true ∧
     (taskLookup afterCancel.1 "j1").map (·.status) =
       some DistStatus.cancelled ∧
     taskLookup (updateTaskResult afterCancel.1 "j1" (some "img") none) "j1" =
       some { t0 with status := DistStatus.completed, result := some "img" }) ∧
    DistStatus.completed ≠ DistStatus.cancelled := by
  refine ⟨⟨by decide, by decide, by decide⟩, by decide⟩

/-- Claim C1, counterexample: a failed result for an active task with
retries = 0 < max_retries = 3.  The result processor leaves every
pending key untouched (nothing is re-enqueued, with or without delay, and
retries stays 0) and immediately pushes the record with status failed to
the outbound queue — the claimed re-enqueue and the deferral of the
failed status until retry exhaustion both fail. -/
theorem c1_retry_counterexample :
    (let td0 : TaskData :=
      { id := "t1", platform := .twitter, status := "running", retries := 0,
        result := none, error := none }
     let st0 : OrchState :=
      { active := fun k => if k = "t1" then some td0 else none,
        completed := fun _ => none, pending := fun _ => [],
        mailbox := fun _ => [], outbound := [], tasksProcessed := 0,
        tasksFailed := 0, tasksQueued := 0 }
     let rFail : WorkerResult :=
      { workerId := 0, taskId := "t1", status := "failed", result := none,
        error := some "boom" }
     td0.retries < maxRetries ∧
     (processResult st0 rFail).pending = st0.pending ∧
     (∀ p : Platform, st0.pending p = []) ∧
     (processResult st0 rFail).outbound.map (·.status) = ["failed"] ∧
     (processResult st0 rFail).outbound.map (·.retries) = [0]) ∧
    ("failed" : String) ≠ "" := by
  refine ⟨⟨by decide, rfl, fun p => rfl, by decide, by decide⟩, by decide⟩

/-- Claim C1, amended: on a failed status for a task in active_tasks the
result processor — regardless of how retries compares to max_retries —
leaves every pending key untouched, keeps the retries counter unchanged,
moves the record out of active_tasks into completed_tasks, bumps the
failure counter, and pushes the record with status failed straight to the
outbound queue; no re-enqueue or backoff delay exists. -/
theorem c1_retry_amended :
    ∀ (st : OrchState) (r : WorkerResult) (td : TaskData),
      r.status = "failed" → st.active r.taskId = some td →
        (processResult st r).pending = st.pending ∧
        (processResult st r).outbound = appliedResult td r :: st.outbound ∧
        (appliedResult td r).retries = td.retries ∧
        (processResult st r).tasksFailed = st.tasksFailed + 1 ∧
        (processResult st r).completed r.taskId = some (appliedResult td r) ∧
        (processResult st r).active r.taskId = none := by
  intro st r td hfail h
  have hne : ¬ (r.status = "completed") := by rw [hfail]; decide
  refine ⟨?_, ?_, rfl, ?_, ?_, ?_⟩
  · rw [processResult, h]
  · rw [processResult, h]; rfl
  · rw [processResult, h]
    simp [hne]
  · rw [processResult, h]
    simp [mapSet, appliedResult]
  · rw [processResult, h]
    simp [mapDel]

/-- Claim C1, amended, witness: the amended behavior at a concrete failed
result. -/
theorem c1_retry_amended_witness :
    (let td0 : TaskData :=
      { id := "t2", platform := .facebook, status := "running", retries := 1,
        result := none, error := none }
     let st0 : OrchState :=
      { active := fun k => if k = "t2" then some td0 else none,
        completed := fun _ => none, pending := fun _ => [],
        mailbox := fun _ => [], outbound := [], tasksProcessed := 0,
        tasksFailed := 0, tasksQueued := 0 }
     let rFail : WorkerResult :=
      { workerId := 1, taskId := "t2", status := "failed", result := none,
        error := some "api 500" }
     rFail.status = "failed" ∧ st0.active rFail.taskId = some td0 ∧
     ((processResult st0 rFail).pending = st0.pending ∧
      (processResult st0 rFail).outbound =
        appliedResult td0 rFail :: st0.outbound ∧
      (appliedResult td0 rFail).retries = td0.retries ∧
      (processResult st0 rFail).tasksFailed = st0.tasksFailed + 1 ∧
      (processResult st0 rFail).completed rFail.taskId =
        some (appliedResult td0 rFail) ∧
      (processResult st0 rFail).active rFail.taskId = none)) := by
  refine ⟨rfl, rfl, ?_⟩
  exact c1_retry_amended _ _ _ rfl rfl

end PostXAgent
